import Mathlib

/-! # Jogo da Vida (`jogo.c`): the parallel generation engine

A shallow embedding of the generation engine of `jogo.c` and a verification of
its partitioning, neighbour counting and rule application.

Conventions of the embedding.

* C `int` values are integers (`Int`); `/` and `%` of C are the truncating
  `Int.tdiv` and `Int.tmod`.  The product `ROWS*COLUMNS` of `threadJob` is an
  `int`: it is reduced to 32 bits in two's complement (`int32`, `elementos`),
  which is what the multiplication yields when the cell count does not fit.
  No other `int` expression of `threadJob` leaves the range of `int` for a
  worker `0 ≤ id < THREADS`, all of them being bounded by `elementos` in
  absolute value.
* The macros `ROWS`, `COLUMNS` and `THREADS` are parameters `R`, `C`, `N` of the
  definitions; the compiled values are `ROWS`, `COLUMNS`, `THREADS` below.
* The globals `table`, `oldTable` and `nextGeneration` form the `State`; a
  `char**` board is a function from row and column to `Char`.
* A `for` loop whose body changes neither its counter nor its bound runs
  `hi - lo` times when `lo < hi` and not at all otherwise (`forLoop`).
* The loops of `contarVizinhos` and `threadJob` are written once, over an
  arbitrary loop body, so that the same skeleton yields both the effect on the
  state and the list of cells visited.
* Workers are composed one after the other (`umaGeracao`, `geracaoCompleta`).
  The `while(1)` loop of `threadJob` is also given step by step for one worker
  (`passo`); a write to the flags from outside, such as that of `sigint`, is a
  step taken between two steps of the worker.
-/

namespace Jogo

/-! ## Constants -/

/-- The macro `ROWS`. -/
def ROWS : Int := 20
/-- The macro `COLUMNS`. -/
def COLUMNS : Int := 20
/-- The macro `THREADS`. -/
def THREADS : Int := 5
/-- The macro `WAIT`. -/
def WAIT : Int := 0
/-- The macro `GO_AHEAD`. -/
def GO_AHEAD : Int := 1
/-- The macro `END`. -/
def END : Int := 2

/-- The global `vazio`: the character of a dead cell. -/
def vazio : Char := '_'
/-- The global `vivo`: the character of a live cell. -/
def vivo : Char := '#'

/-! ## State -/

/-- A board (`volatile char **`), read as `b i j` for `b[i][j]`. -/
abbrev Board := Int → Int → Char

/-- The shared globals of the program. -/
structure State where
  /-- The global `table`: the generation being written. -/
  table : Board
  /-- The global `oldTable`: the generation being read. -/
  oldTable : Board
  /-- The global `nextGeneration`: one flag per worker. -/
  nextGeneration : Int → Int

/-- The assignment `b[i][j] = v`. -/
def Board.set (b : Board) (i j : Int) (v : Char) : Board :=
  fun k l => if k = i ∧ l = j then v else b k l

/-! ## Loops -/

/-- Runs `body k` for `k = lo, lo+1, ...`, `n` times. -/
def forLoopAux {σ : Type} (body : Int → σ → σ) : Nat → Int → σ → σ
  | 0, _, s => s
  | n + 1, k, s => forLoopAux body n (k + 1) (body k s)

/-- The loop `for (k = lo; k < hi; k++) body`. -/
def forLoop {σ : Type} (lo hi : Int) (body : Int → σ → σ) (s : σ) : σ :=
  forLoopAux body (hi - lo).toNat lo s

/-! ## `contarVizinhos` -/

/-- The scan of `contarVizinhos`: the window around `(i, j)`, corrected at the
borders, visited row by row. -/
def scanWindow {σ : Type} (R C i j : Int) (body : Int → Int → σ → σ) (s : σ) : σ :=
  let sLine := i - 1
  let eLine := sLine + 3
  let sCol := j - 1
  let eCol := sCol + 3
  let sLine := if sLine < 0 then sLine + 1 else sLine
  let sCol := if sCol < 0 then sCol + 1 else sCol
  let eLine := if eLine > R then eLine - 1 else eLine
  let eCol := if eCol > C then eCol - 1 else eCol
  forLoop sLine eLine (fun k s => forLoop sCol eCol (fun l s => body k l s) s) s

/-- The function `contarVizinhos(i, j)`, reading the board `oldTable`. -/
def contarVizinhos (R C : Int) (oldTable : Board) (i j : Int) : Int :=
  let vizinhos : Int := 0
  let vizinhos := scanWindow R C i j
    (fun k l vizinhos => if oldTable k l = vivo then vizinhos + 1 else vizinhos) vizinhos
  let vizinhos := if oldTable i j = vivo then vizinhos - 1 else vizinhos
  vizinhos

/-! ## `gerarCelula` -/

/-- The function `gerarCelula(i, j)`. -/
def gerarCelula (R C : Int) (i j : Int) (s : State) : State :=
  let vizinhos := contarVizinhos R C s.oldTable i j
  if s.oldTable i j = vivo then
    if vizinhos < 2 ∨ vizinhos > 3 then
      { s with table := s.table.set i j vazio }
    else
      { s with table := s.table.set i j vivo }
  else
    if vizinhos = 3 then
      { s with table := s.table.set i j vivo }
    else
      { s with table := s.table.set i j vazio }

/-! ## `threadJob` -/

/-- The value held by a 32-bit `int` for the integer `x`: `x` reduced modulo
`2^32` into `[-2^31, 2^31)`. -/
def int32 (x : Int) : Int := (x + 2147483648) % 4294967296 - 2147483648

/-- The local `elementos` of `threadJob`: the `int` product `ROWS*COLUMNS`. -/
def elementos (R C : Int) : Int := int32 (R * C)

/-- The local `inicio` of `threadJob`, for `elementos` cells, `N` workers and
worker `id`. -/
def inicio (elementos N id : Int) : Int :=
  let elementosPorThread := elementos.tdiv N
  let restoElementos := elementos.tmod N
  id * elementosPorThread + (if id ≥ restoElementos then restoElementos else id)

/-- The local `fim` of `threadJob`. -/
def fim (elementos N id : Int) : Int :=
  let elementosPorThread := elementos.tdiv N
  let restoElementos := elementos.tmod N
  (id + 1) * elementosPorThread + (if id + 1 ≥ restoElementos then restoElementos else id + 1)

/-- The two cell loops of `threadJob` (one generation of worker `id`), over an
arbitrary action `body i j` standing for the call `gerarCelula(i, j)`. -/
def threadJobLoops {σ : Type} (R C N id : Int) (body : Int → Int → σ → σ) (s : σ) : σ :=
  let elementos := elementos R C
  let inicio := inicio elementos N id
  let fim := fim elementos N id
  let initI := inicio.tdiv C
  let initJ := inicio.tmod C
  let lastI := fim.tdiv C
  let lastJ := fim.tmod C
  let s := forLoop initI lastI (fun i s => forLoop initJ C (fun j s => body i j s) s) s
  -- the value of `i` when the first loop is left
  let i := if initI < lastI then lastI else initI
  forLoop initJ lastJ (fun j s => body i j s) s

/-- The cells on which one generation of worker `id` calls `gerarCelula`, in
the order of the calls. -/
def threadJobCalls (R C N id : Int) : List (Int × Int) :=
  threadJobLoops R C N id (fun i j calls => calls ++ [(i, j)]) []

/-- One generation of worker `id` in `threadJob`, from the cell loops to the
assignment `nextGeneration[id] = WAIT`. -/
def threadJobStep (R C N id : Int) (s : State) : State :=
  let s := threadJobLoops R C N id (fun i j s => gerarCelula R C i j s) s
  { s with nextGeneration := fun k => if k = id then WAIT else s.nextGeneration k }

/-- One generation of the pool: the workers listed in `ordem` perform their
generation one after the other. -/
def umaGeracao (R C N : Int) (ordem : List Int) (s : State) : State :=
  ordem.foldl (fun s id => threadJobStep R C N id s) s

/-! ## Presets, `prepareNextGeneration`, `sigint` -/

/-- The board left by the clearing loop of `inicializaTable`: every cell `vazio`. -/
def tabuleiroVazio : Board := fun _ _ => vazio

/-- The preset `blinker()`, acting on the board `table`. -/
def blinker (table : Board) : Board :=
  ((table.set 1 0 vivo).set 1 1 vivo).set 1 2 vivo

/-- The preset `bloco()`, acting on the board `table`. -/
def bloco (table : Board) : Board :=
  (((table.set 0 0 vivo).set 0 1 vivo).set 1 0 vivo).set 1 1 vivo

/-- The function `prepareNextGeneration()`: the two boards change roles and the
flag of every worker becomes `GO_AHEAD`. -/
def prepareNextGeneration (N : Int) (s : State) : State :=
  let aux := s.oldTable
  let s := { s with oldTable := s.table }
  let s := { s with table := aux }
  forLoop 0 N
    (fun i s => { s with nextGeneration := fun k => if k = i then GO_AHEAD else s.nextGeneration k })
    s

/-- The flag loop of `sigint()`: the flag of every worker becomes `END`. -/
def sigint (N : Int) (s : State) : State :=
  forLoop 0 N
    (fun i s => { s with nextGeneration := fun k => if k = i then END else s.nextGeneration k })
    s

/-- One full generation: `prepareNextGeneration` followed by one generation of
every worker listed in `ordem`. -/
def geracaoCompleta (R C N : Int) (ordem : List Int) (s : State) : State :=
  umaGeracao R C N ordem (prepareNextGeneration N s)

/-- The state after `n` full generations. -/
def geracoes (R C N : Int) (ordem : List Int) : Nat → State → State
  | 0, s => s
  | n + 1, s => geracaoCompleta R C N ordem (geracoes R C N ordem n s)

/-! ## The loop of `threadJob`, step by step -/

/-- Where a worker stands in the `while(1)` loop of `threadJob`. -/
inductive Pc where
  /-- At `while(nextGeneration[id] == WAIT);`. -/
  | espera
  /-- At `if(nextGeneration[id] == END)`, having left the wait. -/
  | verifica
  /-- Before the two cell loops: the generation is in flight. -/
  | gera
  /-- After the cell loops, before `nextGeneration[id] = WAIT`. -/
  | libera
  /-- After `pthread_exit(0)`. -/
  | terminado
  deriving DecidableEq

/-- One step of worker `id` in the loop of `threadJob`. -/
def passo (R C N id : Int) (w : Pc × State) : Pc × State :=
  match w.1 with
  | Pc.espera =>
    if w.2.nextGeneration id = WAIT then (Pc.espera, w.2) else (Pc.verifica, w.2)
  | Pc.verifica =>
    if w.2.nextGeneration id = END then (Pc.terminado, w.2) else (Pc.gera, w.2)
  | Pc.gera =>
    (Pc.libera, threadJobLoops R C N id (fun i j s => gerarCelula R C i j s) w.2)
  | Pc.libera =>
    (Pc.espera,
      { w.2 with nextGeneration := fun k => if k = id then WAIT else w.2.nextGeneration k })
  | Pc.terminado => (Pc.terminado, w.2)

/-- The worker after `n` steps of its own, nothing else writing in between. -/
def passos (R C N id : Int) : Nat → Pc × State → Pc × State
  | 0, w => w
  | n + 1, w => passos R C N id n (passo R C N id w)

/-! ## The reads of `contarVizinhos` -/

/-- The position `(k, l)` lies on the `R × C` board. -/
def inGrid (R C k l : Int) : Prop := 0 ≤ k ∧ k < R ∧ 0 ≤ l ∧ l < C

instance (R C k l : Int) : Decidable (inGrid R C k l) := by
  unfold inGrid; infer_instance

/-- The offsets `(di, dj)` with `di, dj ∈ {-1, 0, 1}` other than `(0, 0)`. -/
def deslocamentos : List (Int × Int) :=
  (List.product [-1, 0, 1] [-1, 0, 1]).filter (fun d => d ≠ (0, 0))

/-- Specification of the neighbour count: the number of offsets `(di, dj)` for
which `(i+di, j+dj)` lies on the board and is alive in `b`. -/
def liveNeighbours (R C : Int) (b : Board) (i j : Int) : Int :=
  ((deslocamentos.filter
    (fun d => inGrid R C (i + d.1) (j + d.2) ∧ b (i + d.1) (j + d.2) = vivo)).length : Int)

/-- Specification of the rule (`nextState`): a live cell with 2 or 3 live
neighbours survives, otherwise dies; a dead cell with exactly 3 live neighbours
becomes alive, otherwise stays dead. -/
def nextState (R C : Int) (previous : Board) (row col : Int) : Char :=
  let n := liveNeighbours R C previous row col
  if previous row col = vivo then
    if n = 2 ∨ n = 3 then vivo else vazio
  else
    if n = 3 then vivo else vazio

/-! ## The value written by `gerarCelula` -/

/-- The character that `gerarCelula(i, j)` stores in `table[i][j]`. -/
def novaCelula (R C : Int) (oldTable : Board) (i j : Int) : Char :=
  let vizinhos := contarVizinhos R C oldTable i j
  if oldTable i j = vivo then
    if vizinhos < 2 ∨ vizinhos > 3 then vazio else vivo
  else
    if vizinhos = 3 then vivo else vazio

/-- A state with two empty boards and every flag at `GO_AHEAD`. -/
def estadoVazio : State := ⟨fun _ _ => vazio, fun _ _ => vazio, fun _ => GO_AHEAD⟩

/-- A state of the compiled board whose `oldTable` holds the horizontal blinker
`(1,0), (1,1), (1,2)` and whose `table` holds stale live cells everywhere. -/
def estadoBlinker : State :=
  ⟨fun _ _ => vivo, fun i j => if i = 1 ∧ 0 ≤ j ∧ j ≤ 2 then vivo else vazio, fun _ => GO_AHEAD⟩

/-- A 3×3 example: the middle row alive. -/
def linhaDoMeio : Board := fun i _ => if i = 1 then vivo else vazio

/-- The vertical blinker: the cells `(0,1)`, `(1,1)`, `(2,1)` alive, all others
`vazio`. -/
def blinkerVertical : Board := fun i j => if j = 1 ∧ 0 ≤ i ∧ i ≤ 2 then vivo else vazio

/-- The state left by `inicializaTable` with the preset `blinker()`, every flag at
`WAIT`. -/
def estadoInicialBlinker : State := ⟨blinker tabuleiroVazio, tabuleiroVazio, fun _ => WAIT⟩

/-- The state left by `inicializaTable` with the preset `bloco()`, every flag at
`WAIT`. -/
def estadoInicialBloco : State := ⟨bloco tabuleiroVazio, tabuleiroVazio, fun _ => WAIT⟩

/-! ## Auxiliary definitions of the proofs -/

/-- Indicator of a live cell: `1` when the cell `(k, l)` of `b` is alive, `0` otherwise. -/
def ind (b : Board) (k l : Int) : Int := if b k l = vivo then 1 else 0

/-- The value `ind b k l` for a position on the board, `0` off the board. -/
def indGrid (R C : Int) (b : Board) (k l : Int) : Int :=
  if inGrid R C k l then ind b k l else 0

/-- Three guarded steps around `c`: what a window clamped to `[0, B)` does. -/
def guarded3 {σ : Type} (B c : Int) (body : Int → σ → σ) (s : σ) : σ :=
  let g := fun k s => if 0 ≤ k ∧ k < B then body k s else s
  g (c + 1) (g c (g (c - 1) s))

/-- The calls of `n` iterations from `lo`, iteration `k` making the calls `c k`. -/
def rows {α : Type} (c : Int → List α) : Nat → Int → List α
  | 0, _ => []
  | n + 1, k => c k ++ rows c n (k + 1)

/-! ## Loop lemmas -/

theorem forLoop_eq_aux {σ : Type} (lo hi : Int) (n : Nat) (h : hi - lo = n)
    (body : Int → σ → σ) (s : σ) : forLoop lo hi body s = forLoopAux body n lo s := by
  unfold forLoop
  rw [h, Int.toNat_ofNat]

theorem forLoop_empty {σ : Type} (lo hi : Int) (h : hi ≤ lo)
    (body : Int → σ → σ) (s : σ) : forLoop lo hi body s = s := by
  unfold forLoop
  rw [Int.toNat_eq_zero.mpr (by omega)]
  rfl

/-- Clamping the bounds of the window is the same as guarding each step. -/
theorem forLoop_clamped {σ : Type} (B c : Int) (h0 : 0 ≤ c) (h1 : c < B)
    (body : Int → σ → σ) (s : σ) :
    forLoop (if c - 1 < 0 then c - 1 + 1 else c - 1)
        (if c - 1 + 3 > B then c - 1 + 3 - 1 else c - 1 + 3) body s
      = guarded3 B c body s := by
  unfold guarded3
  by_cases ha : c - 1 < 0 <;> by_cases hb : c - 1 + 3 > B
  · have hc : c = 0 := by omega
    subst hc
    rw [if_pos ha, if_pos hb, forLoop_eq_aux _ _ 1 (by omega)]
    have hB : ¬ ((1:Int) < B) := by omega
    simp [forLoopAux, h1, hB]
  · have hc : c = 0 := by omega
    subst hc
    rw [if_pos ha, if_neg hb, forLoop_eq_aux _ _ 2 (by omega)]
    have hB : (1:Int) < B := by omega
    simp [forLoopAux, h1, hB]
  · rw [if_neg ha, if_pos hb, forLoop_eq_aux _ _ 2 (by omega)]
    have hB : ¬ (c + 1 < B) := by omega
    have h2 : 0 ≤ c - 1 := by omega
    have h3 : c - 1 < B := by omega
    have h4 : c - 1 + 1 = c := by omega
    simp [forLoopAux, h0, h1, hB, h2, h3, h4]
  · rw [if_neg ha, if_neg hb, forLoop_eq_aux _ _ 3 (by omega)]
    have hB : c + 1 < B := by omega
    have h2 : 0 ≤ c - 1 := by omega
    have h3 : c - 1 < B := by omega
    have h4 : c - 1 + 1 = c := by omega
    have h5 : 0 ≤ c + 1 := by omega
    simp [forLoopAux, h0, h1, hB, h2, h3, h4, h5]

theorem scanWindow_guarded {σ : Type} (R C i j : Int) (hi0 : 0 ≤ i) (hi1 : i < R)
    (hj0 : 0 ≤ j) (hj1 : j < C) (body : Int → Int → σ → σ) (s : σ) :
    scanWindow R C i j body s
      = guarded3 R i (fun k s => guarded3 C j (fun l s => body k l s) s) s := by
  unfold scanWindow
  simp only
  rw [forLoop_clamped R i hi0 hi1]
  congr 1
  funext k s
  exact forLoop_clamped C j hj0 hj1 _ s

/-! ## Loops as lists of calls -/

theorem forLoopAux_append {α : Type} (c : Int → List α) (n : Nat) (lo : Int) (acc : List α) :
    forLoopAux (fun k acc => acc ++ c k) n lo acc = acc ++ rows c n lo := by
  induction n generalizing lo acc with
  | zero => simp [forLoopAux, rows]
  | succ n ih => simp [forLoopAux, rows, ih]

theorem forLoopAux_foldl {α σ : Type} (step : σ → α → σ) (c : Int → List α)
    (body : Int → σ → σ) (h : ∀ k s, body k s = (c k).foldl step s)
    (n : Nat) (lo : Int) (s : σ) :
    forLoopAux body n lo s = (rows c n lo).foldl step s := by
  induction n generalizing lo s with
  | zero => simp [forLoopAux, rows]
  | succ n ih => simp [forLoopAux, rows, ih, h]

theorem mem_rows {α : Type} (c : Int → List α) (n : Nat) (lo : Int) (p : α) :
    p ∈ rows c n lo ↔ ∃ k, lo ≤ k ∧ k < lo + n ∧ p ∈ c k := by
  induction n generalizing lo with
  | zero =>
    simp only [rows, List.not_mem_nil, false_iff]
    rintro ⟨k, h1, h2, _⟩
    simp at h2
    omega
  | succ n ih =>
    simp only [rows, List.mem_append, ih]
    constructor
    · rintro (h | ⟨k, h1, h2, h3⟩)
      · exact ⟨lo, le_refl _, by push_cast; omega, h⟩
      · exact ⟨k, by omega, by push_cast; omega, h3⟩
    · rintro ⟨k, h1, h2, h3⟩
      by_cases hk : k = lo
      · left; rw [← hk]; exact h3
      · right; exact ⟨k, by omega, by push_cast at h2; omega, h3⟩

/-- The calls of `threadJob`, loop by loop. -/
theorem threadJobCalls_eq (R C N id : Int) :
    threadJobCalls R C N id
      = rows (fun i => rows (fun j => [(i, j)])
            (C - (inicio (elementos R C) N id).tmod C).toNat ((inicio (elementos R C) N id).tmod C))
          ((fim (elementos R C) N id).tdiv C - (inicio (elementos R C) N id).tdiv C).toNat
          ((inicio (elementos R C) N id).tdiv C)
        ++ rows (fun j =>
            [(if (inicio (elementos R C) N id).tdiv C < (fim (elementos R C) N id).tdiv C
                then (fim (elementos R C) N id).tdiv C else (inicio (elementos R C) N id).tdiv C, j)])
          ((fim (elementos R C) N id).tmod C - (inicio (elementos R C) N id).tmod C).toNat
          ((inicio (elementos R C) N id).tmod C) := by
  unfold threadJobCalls threadJobLoops forLoop
  simp only
  have hin : ∀ n lo, (fun (i : Int) (s : List (Int × Int)) =>
        forLoopAux (fun j s => s ++ [(i, j)]) n lo s)
      = fun i s => s ++ rows (fun j => [(i, j)]) n lo := by
    intro n lo
    funext i s
    exact forLoopAux_append (fun j => [(i, j)]) n lo s
  rw [hin, forLoopAux_append, forLoopAux_append, List.nil_append]

/-- The effect of the loops of `threadJob` is that of its calls, in order. -/
theorem threadJobLoops_eq_foldl {σ : Type} (R C N id : Int) (body : Int → Int → σ → σ) (s : σ) :
    threadJobLoops R C N id body s
      = (threadJobCalls R C N id).foldl (fun s p => body p.1 p.2 s) s := by
  have inner : ∀ (n : Nat) (lo i : Int) (s : σ),
      forLoopAux (fun j s => body i j s) n lo s
        = (rows (fun j => [(i, j)]) n lo).foldl (fun s (p : Int × Int) => body p.1 p.2 s) s :=
    fun n lo i s =>
      forLoopAux_foldl (fun s (p : Int × Int) => body p.1 p.2 s) (fun j => [(i, j)]) _
        (fun _ _ => rfl) n lo s
  have outer : ∀ (n' : Nat) (lo' : Int) (n : Nat) (lo : Int) (s : σ),
      forLoopAux (fun i s => forLoopAux (fun j s => body i j s) n' lo' s) n lo s
        = (rows (fun i => rows (fun j => [(i, j)]) n' lo') n lo).foldl
            (fun s (p : Int × Int) => body p.1 p.2 s) s :=
    fun n' lo' n lo s =>
      forLoopAux_foldl (fun s (p : Int × Int) => body p.1 p.2 s) _ _
        (fun i s => inner n' lo' i s) n lo s
  rw [threadJobCalls_eq, List.foldl_append]
  unfold threadJobLoops forLoop
  simp only
  rw [outer, inner]

/-- Which cells one generation of worker `id` visits. -/
theorem mem_threadJobCalls (R C N id i j : Int) :
    (i, j) ∈ threadJobCalls R C N id ↔
      ((inicio (elementos R C) N id).tdiv C ≤ i ∧ i < (fim (elementos R C) N id).tdiv C
          ∧ (inicio (elementos R C) N id).tmod C ≤ j ∧ j < C)
        ∨ (i = (if (inicio (elementos R C) N id).tdiv C < (fim (elementos R C) N id).tdiv C
                then (fim (elementos R C) N id).tdiv C else (inicio (elementos R C) N id).tdiv C)
          ∧ (inicio (elementos R C) N id).tmod C ≤ j ∧ j < (fim (elementos R C) N id).tmod C) := by
  rw [threadJobCalls_eq, List.mem_append, mem_rows, mem_rows]
  simp only [mem_rows, List.mem_singleton, Prod.mk.injEq]
  constructor
  · rintro (⟨k, h1, h2, l, h3, h4, h5, h6⟩ | ⟨l, h1, h2, h3, h4⟩)
    · left; subst h5; subst h6; omega
    · right; subst h4; exact ⟨h3, by omega, by omega⟩
  · rintro (⟨h1, h2, h3, h4⟩ | ⟨h1, h2, h3⟩)
    · left; exact ⟨i, h1, by omega, j, h3, by omega, rfl, rfl⟩
    · right; exact ⟨j, h2, by omega, h1, rfl⟩

/-! ## The neighbour count -/

theorem guarded3_add (B c : Int) (f : Int → Int) (v : Int) :
    guarded3 B c (fun k v => v + f k) v
      = v + ((if 0 ≤ c - 1 ∧ c - 1 < B then f (c - 1) else 0)
          + (if 0 ≤ c ∧ c < B then f c else 0)
          + (if 0 ≤ c + 1 ∧ c + 1 < B then f (c + 1) else 0)) := by
  unfold guarded3
  simp only
  split_ifs <;> ring

theorem indGrid_eq (R C : Int) (b : Board) (k l : Int) :
    indGrid R C b k l
      = if 0 ≤ k ∧ k < R then (if 0 ≤ l ∧ l < C then ind b k l else 0) else 0 := by
  unfold indGrid inGrid
  split_ifs <;> first | rfl | (exfalso; tauto)

/-- The count of `contarVizinhos` as a sum over the 3×3 window, every term
guarded by the board, less the centre. -/
theorem contarVizinhos_eq_sum (R C : Int) (b : Board) (i j : Int)
    (hi0 : 0 ≤ i) (hi1 : i < R) (hj0 : 0 ≤ j) (hj1 : j < C) :
    contarVizinhos R C b i j
      = indGrid R C b (i - 1) (j - 1) + indGrid R C b (i - 1) j + indGrid R C b (i - 1) (j + 1)
        + indGrid R C b i (j - 1) + indGrid R C b i (j + 1)
        + indGrid R C b (i + 1) (j - 1) + indGrid R C b (i + 1) j
        + indGrid R C b (i + 1) (j + 1) := by
  unfold contarVizinhos
  simp only
  rw [scanWindow_guarded R C i j hi0 hi1 hj0 hj1]
  have hinner : (fun (k : Int) (s : Int) =>
        guarded3 C j (fun l s => if b k l = vivo then s + 1 else s) s)
      = fun k s => s + ((if 0 ≤ j - 1 ∧ j - 1 < C then ind b k (j - 1) else 0)
          + (if 0 ≤ j ∧ j < C then ind b k j else 0)
          + (if 0 ≤ j + 1 ∧ j + 1 < C then ind b k (j + 1) else 0)) := by
    funext k s
    have hbody : (fun (l : Int) (s : Int) => if b k l = vivo then s + 1 else s)
        = fun l s => s + ind b k l := by
      funext l v
      unfold ind
      split_ifs <;> simp
    rw [hbody]
    exact guarded3_add C j (fun l => ind b k l) s
  rw [hinner, guarded3_add]
  have hself : ∀ X : Int, (if b i j = vivo then X - 1 else X) = X - ind b i j := by
    intro X
    unfold ind
    split_ifs <;> ring
  rw [hself]
  have hc : 0 ≤ j ∧ j < C := ⟨hj0, hj1⟩
  have hr : 0 ≤ i ∧ i < R := ⟨hi0, hi1⟩
  simp only [indGrid_eq, if_pos hc, if_pos hr]
  by_cases h1 : 0 ≤ i - 1 ∧ i - 1 < R <;> by_cases h2 : 0 ≤ i + 1 ∧ i + 1 < R <;>
    by_cases h3 : 0 ≤ j - 1 ∧ j - 1 < C <;> by_cases h4 : 0 ≤ j + 1 ∧ j + 1 < C <;>
    simp only [h1, h2, h3, h4, and_self, if_true, if_false] <;> ring

theorem length_filter_indGrid (R C : Int) (b : Board) (i j : Int) (l : List (Int × Int)) :
    ((l.filter
        (fun d => inGrid R C (i + d.1) (j + d.2) ∧ b (i + d.1) (j + d.2) = vivo)).length : Int)
      = (l.map (fun d => indGrid R C b (i + d.1) (j + d.2))).sum := by
  induction l with
  | nil => simp
  | cons d l ih =>
    rw [List.filter_cons, List.map_cons, List.sum_cons, ← ih]
    unfold indGrid ind
    by_cases h1 : inGrid R C (i + d.1) (j + d.2) <;>
      by_cases h2 : b (i + d.1) (j + d.2) = vivo <;>
      simp [h1, h2]
    ring

theorem liveNeighbours_eq_sum (R C : Int) (b : Board) (i j : Int) :
    liveNeighbours R C b i j
      = indGrid R C b (i - 1) (j - 1) + indGrid R C b (i - 1) j + indGrid R C b (i - 1) (j + 1)
        + indGrid R C b i (j - 1) + indGrid R C b i (j + 1)
        + indGrid R C b (i + 1) (j - 1) + indGrid R C b (i + 1) j
        + indGrid R C b (i + 1) (j + 1) := by
  unfold liveNeighbours
  rw [length_filter_indGrid]
  have hd : deslocamentos
      = [(-1, -1), (-1, 0), (-1, 1), (0, -1), (0, 1), (1, -1), (1, 0), (1, 1)] := by decide
  rw [hd]
  simp only [List.map_cons, List.map_nil, List.sum_cons, List.sum_nil, add_zero,
    ← sub_eq_add_neg]
  ring

/-- The count of the code is the count of the specification. -/
theorem contarVizinhos_spec (R C : Int) (b : Board) (i j : Int)
    (hi0 : 0 ≤ i) (hi1 : i < R) (hj0 : 0 ≤ j) (hj1 : j < C) :
    contarVizinhos R C b i j = liveNeighbours R C b i j := by
  rw [contarVizinhos_eq_sum R C b i j hi0 hi1 hj0 hj1, liveNeighbours_eq_sum]

/-! ## The effect of `gerarCelula` and of a generation -/

theorem gerarCelula_eq (R C i j : Int) (s : State) :
    gerarCelula R C i j s
      = { s with table := s.table.set i j (novaCelula R C s.oldTable i j) } := by
  unfold gerarCelula novaCelula
  simp only
  split_ifs <;> rfl

theorem vivo_ne_vazio : vivo ≠ vazio := by decide

/-- On the board the value written by `gerarCelula` is that of the rule. -/
theorem novaCelula_spec (R C : Int) (b : Board) (i j : Int)
    (hi0 : 0 ≤ i) (hi1 : i < R) (hj0 : 0 ≤ j) (hj1 : j < C) :
    novaCelula R C b i j = nextState R C b i j := by
  unfold novaCelula nextState
  simp only
  rw [contarVizinhos_spec R C b i j hi0 hi1 hj0 hj1]
  have hn : 0 ≤ liveNeighbours R C b i j := by
    unfold liveNeighbours
    exact Int.ofNat_nonneg _
  generalize liveNeighbours R C b i j = n at hn
  by_cases ha : b i j = vivo
  · rw [if_pos ha, if_pos ha]
    by_cases h : n < 2 ∨ n > 3
    · rw [if_pos h, if_neg (by omega)]
    · rw [if_neg h, if_pos (by omega)]
  · rw [if_neg ha, if_neg ha]

theorem foldl_gerarCelula_oldTable (R C : Int) (calls : List (Int × Int)) (s : State) :
    (calls.foldl (fun s p => gerarCelula R C p.1 p.2 s) s).oldTable = s.oldTable
      ∧ (calls.foldl (fun s p => gerarCelula R C p.1 p.2 s) s).nextGeneration
          = s.nextGeneration := by
  induction calls generalizing s with
  | nil => exact ⟨rfl, rfl⟩
  | cons p rest ih =>
    rw [List.foldl_cons]
    have h := ih (gerarCelula R C p.1 p.2 s)
    have e1 : (gerarCelula R C p.1 p.2 s).oldTable = s.oldTable := by rw [gerarCelula_eq]
    have e2 : (gerarCelula R C p.1 p.2 s).nextGeneration = s.nextGeneration := by
      rw [gerarCelula_eq]
    rw [e1, e2] at h
    exact h

theorem foldl_gerarCelula_table (R C : Int) (calls : List (Int × Int)) (s : State)
    (i j : Int) :
    (calls.foldl (fun s p => gerarCelula R C p.1 p.2 s) s).table i j
      = if (i, j) ∈ calls then novaCelula R C s.oldTable i j else s.table i j := by
  induction calls generalizing s with
  | nil => simp
  | cons p rest ih =>
    rw [List.foldl_cons, ih, gerarCelula_eq]
    simp only [Board.set, List.mem_cons]
    by_cases h1 : (i, j) ∈ rest
    · simp [h1]
    · by_cases h2 : (i, j) = p
      · have h3 : i = p.1 ∧ j = p.2 := by rw [← h2]; exact ⟨rfl, rfl⟩
        simp [h1, h2, h3]
      · have h3 : ¬ (i = p.1 ∧ j = p.2) := by
          rintro ⟨ha, hb⟩
          exact h2 (Prod.ext ha hb)
        simp [h1, h2, h3]

theorem threadJobStep_oldTable (R C N id : Int) (s : State) :
    (threadJobStep R C N id s).oldTable = s.oldTable := by
  unfold threadJobStep
  simp only
  rw [threadJobLoops_eq_foldl]
  exact (foldl_gerarCelula_oldTable R C _ s).1

theorem threadJobStep_table (R C N id : Int) (s : State) (i j : Int) :
    (threadJobStep R C N id s).table i j
      = if (i, j) ∈ threadJobCalls R C N id then novaCelula R C s.oldTable i j
        else s.table i j := by
  unfold threadJobStep
  simp only
  rw [threadJobLoops_eq_foldl]
  exact foldl_gerarCelula_table R C _ s i j

theorem umaGeracao_oldTable (R C N : Int) (ordem : List Int) (s : State) :
    (umaGeracao R C N ordem s).oldTable = s.oldTable := by
  unfold umaGeracao
  induction ordem generalizing s with
  | nil => rfl
  | cons id rest ih => rw [List.foldl_cons, ih, threadJobStep_oldTable]

/-- A cell that already holds its new value keeps it through further workers. -/
theorem umaGeracao_keeps (R C N : Int) (ordem : List Int) (s : State) (i j : Int)
    (h : s.table i j = novaCelula R C s.oldTable i j) :
    (umaGeracao R C N ordem s).table i j = novaCelula R C s.oldTable i j := by
  unfold umaGeracao
  induction ordem generalizing s with
  | nil => exact h
  | cons id rest ih =>
    rw [List.foldl_cons]
    have h2 := ih (threadJobStep R C N id s)
    rw [threadJobStep_oldTable] at h2
    apply h2
    rw [threadJobStep_table]
    split_ifs
    · rfl
    · exact h

/-- A cell visited by some worker of the generation holds its new value. -/
theorem umaGeracao_table (R C N : Int) (ordem : List Int) (s : State) (i j : Int)
    (h : ∃ id ∈ ordem, (i, j) ∈ threadJobCalls R C N id) :
    (umaGeracao R C N ordem s).table i j = novaCelula R C s.oldTable i j := by
  induction ordem generalizing s with
  | nil =>
    obtain ⟨id, hid, _⟩ := h
    exact absurd hid (List.not_mem_nil id)
  | cons id rest ih =>
    have hstep : umaGeracao R C N (id :: rest) s
        = umaGeracao R C N rest (threadJobStep R C N id s) := rfl
    rw [hstep]
    by_cases hm : (i, j) ∈ threadJobCalls R C N id
    · have h2 := umaGeracao_keeps R C N rest (threadJobStep R C N id s) i j
      rw [threadJobStep_oldTable] at h2
      apply h2
      rw [threadJobStep_table, if_pos hm]
    · have h2 := ih (threadJobStep R C N id s)
      rw [threadJobStep_oldTable] at h2
      apply h2
      obtain ⟨id', hid', hmem⟩ := h
      rcases List.mem_cons.mp hid' with rfl | hr
      · exact absurd hmem hm
      · exact ⟨id', hr, hmem⟩

/-! ## The partition arithmetic -/

theorem inicio_eq (E N id : Int) (hE : 0 ≤ E) (hN : 1 ≤ N) :
    inicio E N id = id * (E / N) + min id (E % N) := by
  unfold inicio
  simp only
  rw [Int.tdiv_eq_ediv hE (by omega), Int.tmod_eq_emod hE (by omega)]
  congr 1
  split_ifs with h
  · exact (min_eq_right h).symm
  · exact (min_eq_left (by omega)).symm

theorem fim_eq_inicio_succ (E N id : Int) : fim E N id = inicio E N (id + 1) := rfl

theorem fim_eq (E N id : Int) (hE : 0 ≤ E) (hN : 1 ≤ N) :
    fim E N id = (id + 1) * (E / N) + min (id + 1) (E % N) := by
  rw [fim_eq_inicio_succ, inicio_eq E N (id + 1) hE hN]

theorem quot_nonneg (E N : Int) (hE : 0 ≤ E) (hN : 1 ≤ N) : 0 ≤ E / N :=
  Int.ediv_nonneg hE (by omega)

theorem resto_bounds (E N : Int) (hN : 1 ≤ N) : 0 ≤ E % N ∧ E % N < N :=
  ⟨Int.emod_nonneg E (by omega), Int.emod_lt_of_pos E (by omega)⟩

theorem tamanho_eq (E N id : Int) (hE : 0 ≤ E) (hN : 1 ≤ N) :
    fim E N id - inicio E N id = if id < E % N then E / N + 1 else E / N := by
  rw [fim_eq E N id hE hN, inicio_eq E N id hE hN]
  have h : (id + 1) * (E / N) = id * (E / N) + E / N := by ring
  rw [h]
  generalize id * (E / N) = t
  generalize E / N = q
  generalize E % N = r
  split_ifs with hlt
  · rw [min_eq_left (by omega), min_eq_left (by omega)]
    omega
  · rw [min_eq_right (by omega), min_eq_right (by omega)]
    omega

theorem inicio_le_fim (E N id : Int) (hE : 0 ≤ E) (hN : 1 ≤ N) :
    inicio E N id ≤ fim E N id := by
  have h := tamanho_eq E N id hE hN
  have hq := quot_nonneg E N hE hN
  split_ifs at h <;> omega

theorem inicio_zero (E N : Int) (hE : 0 ≤ E) (hN : 1 ≤ N) : inicio E N 0 = 0 := by
  rw [inicio_eq E N 0 hE hN, min_eq_left (resto_bounds E N hN).1]
  simp

theorem inicio_total (E N : Int) (hE : 0 ≤ E) (hN : 1 ≤ N) : inicio E N N = E := by
  rw [inicio_eq E N N hE hN, min_eq_right (le_of_lt (resto_bounds E N hN).2)]
  exact Int.ediv_add_emod E N

theorem inicio_mono_nat (E N a : Int) (hE : 0 ≤ E) (hN : 1 ≤ N) (n : Nat) :
    inicio E N a ≤ inicio E N (a + n) := by
  induction n with
  | zero => simp
  | succ n ih =>
    have h := inicio_le_fim E N (a + n) hE hN
    rw [fim_eq_inicio_succ] at h
    have e : a + ((n + 1 : Nat) : Int) = a + n + 1 := by push_cast; ring
    rw [e]
    exact le_trans ih h

theorem inicio_mono (E N a b : Int) (hE : 0 ≤ E) (hN : 1 ≤ N) (hab : a ≤ b) :
    inicio E N a ≤ inicio E N b := by
  have h := inicio_mono_nat E N a hE hN (b - a).toNat
  rw [Int.toNat_of_nonneg (by omega)] at h
  have e : a + (b - a) = b := by ring
  rwa [e] at h

theorem fim_le_total (E N id : Int) (hE : 0 ≤ E) (hN : 1 ≤ N) (hid : id < N) :
    fim E N id ≤ E := by
  have h := inicio_mono E N (id + 1) N hE hN (by omega)
  rw [inicio_total E N hE hN] at h
  exact h

theorem inicio_nonneg (E N id : Int) (hE : 0 ≤ E) (hN : 1 ≤ N) (hid : 0 ≤ id) :
    0 ≤ inicio E N id := by
  rw [← inicio_zero E N hE hN]
  exact inicio_mono E N 0 id hE hN hid

/-- Every index below `inicio n` lies in the range of a worker below `n`. -/
theorem exists_worker_below (E N k : Int) (hE : 0 ≤ E) (hN : 1 ≤ N) (hk : 0 ≤ k) (n : Nat) :
    k < inicio E N n →
      ∃ id : Int, 0 ≤ id ∧ id < (n : Int) ∧ inicio E N id ≤ k ∧ k < fim E N id := by
  induction n with
  | zero =>
    intro h
    rw [Nat.cast_zero, inicio_zero E N hE hN] at h
    omega
  | succ n ih =>
    intro h
    by_cases hlt : k < inicio E N n
    · obtain ⟨id, h0, h1, h2, h3⟩ := ih hlt
      exact ⟨id, h0, by push_cast; omega, h2, h3⟩
    · refine ⟨n, by omega, by push_cast; omega, by omega, ?_⟩
      rw [fim_eq_inicio_succ]
      have e : ((n + 1 : Nat) : Int) = (n : Int) + 1 := by push_cast; ring
      rw [e] at h
      exact h

/-! ## The cells of a worker -/

/-- A cell count above the range of `int` wraps: a 65536×65537 board counts as
65536 cells, of which worker 0 of 16777216 visits one. -/
theorem elementos_wraps :
    elementos 65536 65537 = 65536
      ∧ threadJobCalls 65536 65537 16777216 0 = [(0, 0)] := by
  decide

/-- With the compiled constants worker `id` visits the rows `4*id, ..., 4*id+3`. -/
theorem mem_calls_compiled (id i j : Int) (hid : id ∈ [0, 1, 2, 3, 4]) :
    (i, j) ∈ threadJobCalls ROWS COLUMNS THREADS id ↔
      4 * id ≤ i ∧ i < 4 * id + 4 ∧ 0 ≤ j ∧ j < 20 := by
  rw [mem_threadJobCalls]
  have hC : COLUMNS = 20 := rfl
  simp only [List.mem_cons, List.mem_singleton, List.not_mem_nil, or_false] at hid
  rcases hid with rfl | rfl | rfl | rfl | rfl
  · rw [show (inicio (elementos ROWS COLUMNS) THREADS 0).tdiv COLUMNS = 0 by decide,
      show (inicio (elementos ROWS COLUMNS) THREADS 0).tmod COLUMNS = 0 by decide,
      show (fim (elementos ROWS COLUMNS) THREADS 0).tdiv COLUMNS = 4 by decide,
      show (fim (elementos ROWS COLUMNS) THREADS 0).tmod COLUMNS = 0 by decide, hC]
    simp only [show ((0:Int) < 4) from by decide, if_true]
    omega
  · rw [show (inicio (elementos ROWS COLUMNS) THREADS 1).tdiv COLUMNS = 4 by decide,
      show (inicio (elementos ROWS COLUMNS) THREADS 1).tmod COLUMNS = 0 by decide,
      show (fim (elementos ROWS COLUMNS) THREADS 1).tdiv COLUMNS = 8 by decide,
      show (fim (elementos ROWS COLUMNS) THREADS 1).tmod COLUMNS = 0 by decide, hC]
    simp only [show ((4:Int) < 8) from by decide, if_true]
    omega
  · rw [show (inicio (elementos ROWS COLUMNS) THREADS 2).tdiv COLUMNS = 8 by decide,
      show (inicio (elementos ROWS COLUMNS) THREADS 2).tmod COLUMNS = 0 by decide,
      show (fim (elementos ROWS COLUMNS) THREADS 2).tdiv COLUMNS = 12 by decide,
      show (fim (elementos ROWS COLUMNS) THREADS 2).tmod COLUMNS = 0 by decide, hC]
    simp only [show ((8:Int) < 12) from by decide, if_true]
    omega
  · rw [show (inicio (elementos ROWS COLUMNS) THREADS 3).tdiv COLUMNS = 12 by decide,
      show (inicio (elementos ROWS COLUMNS) THREADS 3).tmod COLUMNS = 0 by decide,
      show (fim (elementos ROWS COLUMNS) THREADS 3).tdiv COLUMNS = 16 by decide,
      show (fim (elementos ROWS COLUMNS) THREADS 3).tmod COLUMNS = 0 by decide, hC]
    simp only [show ((12:Int) < 16) from by decide, if_true]
    omega
  · rw [show (inicio (elementos ROWS COLUMNS) THREADS 4).tdiv COLUMNS = 16 by decide,
      show (inicio (elementos ROWS COLUMNS) THREADS 4).tmod COLUMNS = 0 by decide,
      show (fim (elementos ROWS COLUMNS) THREADS 4).tdiv COLUMNS = 20 by decide,
      show (fim (elementos ROWS COLUMNS) THREADS 4).tmod COLUMNS = 0 by decide, hC]
    simp only [show ((16:Int) < 20) from by decide, if_true]
    omega

/-- With the compiled constants every cell of the board is visited by one of
the five workers. -/
theorem compiled_cover (i j : Int) (h : inGrid ROWS COLUMNS i j) :
    ∃ id ∈ [(0 : Int), 1, 2, 3, 4], (i, j) ∈ threadJobCalls ROWS COLUMNS THREADS id := by
  obtain ⟨h1, h2, h3, h4⟩ := h
  have hR : ROWS = 20 := rfl
  have hC : COLUMNS = 20 := rfl
  rw [hR] at h2
  rw [hC] at h4
  have hid : i / 4 ∈ [(0 : Int), 1, 2, 3, 4] := by
    simp only [List.mem_cons, List.mem_singleton, List.not_mem_nil, or_false]
    omega
  exact ⟨i / 4, hid, (mem_calls_compiled (i / 4) i j hid).mpr (by omega)⟩

/-! ## Bounds and special cases of the neighbour count -/

theorem indGrid_dead (R C : Int) (b : Board) (k l : Int)
    (h : inGrid R C k l → b k l ≠ vivo) : indGrid R C b k l = 0 := by
  unfold indGrid ind
  by_cases hg : inGrid R C k l
  · rw [if_pos hg, if_neg (h hg)]
  · rw [if_neg hg]

theorem indGrid_live (R C : Int) (b : Board) (k l : Int)
    (hg : inGrid R C k l) (h : b k l = vivo) : indGrid R C b k l = 1 := by
  unfold indGrid ind
  rw [if_pos hg, if_pos h]

/-- Over a board with no live cell the count is 0. -/
theorem contarVizinhos_all_dead (R C : Int) (b : Board) (i j : Int)
    (hi0 : 0 ≤ i) (hi1 : i < R) (hj0 : 0 ≤ j) (hj1 : j < C)
    (hdead : ∀ k l, inGrid R C k l → b k l = vazio) :
    contarVizinhos R C b i j = 0 := by
  have hd : ∀ k l, indGrid R C b k l = 0 := fun k l =>
    indGrid_dead R C b k l (fun hg h => vivo_ne_vazio (h.symm.trans (hdead k l hg)))
  rw [contarVizinhos_eq_sum R C b i j hi0 hi1 hj0 hj1]
  simp only [hd, add_zero]

/-- The count at the corner `(0, 0)` when `(0,1)` and `(1,0)` are alive and
`(1,1)` is not. -/
theorem contarVizinhos_corner (R C : Int) (b : Board) (hR : 2 ≤ R) (hC : 2 ≤ C)
    (h01 : b 0 1 = vivo) (h10 : b 1 0 = vivo) (h11 : b 1 1 ≠ vivo) :
    contarVizinhos R C b 0 0 = 2 := by
  rw [contarVizinhos_eq_sum R C b 0 0 (le_refl 0) (by omega) (le_refl 0) (by omega)]
  have out : ∀ k l : Int, (k < 0 ∨ l < 0) → indGrid R C b k l = 0 := by
    intro k l h
    unfold indGrid
    rw [if_neg]
    unfold inGrid
    omega
  rw [out (0 - 1) (0 - 1) (by omega), out (0 - 1) 0 (by omega), out (0 - 1) (0 + 1) (by omega),
    out 0 (0 - 1) (by omega), out (0 + 1) (0 - 1) (by omega)]
  have e1 : indGrid R C b 0 (0 + 1) = 1 :=
    indGrid_live R C b 0 (0 + 1) ⟨le_refl 0, by omega, by omega, by omega⟩ h01
  have e2 : indGrid R C b (0 + 1) 0 = 1 :=
    indGrid_live R C b (0 + 1) 0 ⟨by omega, by omega, le_refl 0, by omega⟩ h10
  have e3 : indGrid R C b (0 + 1) (0 + 1) = 0 :=
    indGrid_dead R C b (0 + 1) (0 + 1) (fun _ => h11)
  rw [e1, e2, e3]
  rfl

/-! ## The reads of the scan -/

theorem forLoopAux_flags (v : Int) (n : Nat) (lo : Int) (s : State) :
    (forLoopAux (fun i (s : State) =>
          { s with nextGeneration := fun k => if k = i then v else s.nextGeneration k })
        n lo s).table = s.table
      ∧ (forLoopAux (fun i (s : State) =>
          { s with nextGeneration := fun k => if k = i then v else s.nextGeneration k })
        n lo s).oldTable = s.oldTable
      ∧ ∀ k, (forLoopAux (fun i (s : State) =>
          { s with nextGeneration := fun k => if k = i then v else s.nextGeneration k })
        n lo s).nextGeneration k
          = if lo ≤ k ∧ k < lo + n then v else s.nextGeneration k := by
  induction n generalizing lo s with
  | zero =>
    refine ⟨rfl, rfl, fun k => ?_⟩
    have : ¬ (lo ≤ k ∧ k < lo + ((0 : Nat) : Int)) := by
      push_cast
      omega
    rw [if_neg this]
    rfl
  | succ n ih =>
    simp only [forLoopAux]
    obtain ⟨h1, h2, h3⟩ := ih (lo + 1)
      { s with nextGeneration := fun k => if k = lo then v else s.nextGeneration k }
    refine ⟨h1, h2, fun k => ?_⟩
    rw [h3 k]
    simp only
    push_cast
    by_cases hk : k = lo
    · subst hk
      have e1 : ¬ (k + 1 ≤ k ∧ k < k + 1 + (n : Int)) := by omega
      have e2 : k ≤ k ∧ k < k + ((n : Int) + 1) := by omega
      rw [if_neg e1, if_pos e2, if_pos rfl]
    · rw [if_neg hk]
      by_cases hr : lo + 1 ≤ k ∧ k < lo + 1 + (n : Int)
      · rw [if_pos hr, if_pos (by omega)]
      · rw [if_neg hr, if_neg (by omega)]

theorem prepareNextGeneration_spec (N : Int) (s : State) :
    (prepareNextGeneration N s).table = s.oldTable
      ∧ (prepareNextGeneration N s).oldTable = s.table
      ∧ ∀ k, (prepareNextGeneration N s).nextGeneration k
          = if 0 ≤ k ∧ k < N then GO_AHEAD else s.nextGeneration k := by
  unfold prepareNextGeneration forLoop
  simp only
  obtain ⟨h1, h2, h3⟩ := forLoopAux_flags GO_AHEAD (N - 0).toNat 0
    { table := s.oldTable, oldTable := s.table, nextGeneration := s.nextGeneration }
  refine ⟨h1, h2, fun k => ?_⟩
  rw [h3 k]
  by_cases hk : 0 ≤ k ∧ k < N
  · rw [if_pos hk, if_pos (by omega)]
  · rw [if_neg hk, if_neg (by omega)]

theorem sigint_spec (N : Int) (s : State) :
    (sigint N s).table = s.table
      ∧ (sigint N s).oldTable = s.oldTable
      ∧ ∀ k, (sigint N s).nextGeneration k
          = if 0 ≤ k ∧ k < N then END else s.nextGeneration k := by
  unfold sigint forLoop
  obtain ⟨h1, h2, h3⟩ := forLoopAux_flags END (N - 0).toNat 0 s
  refine ⟨h1, h2, fun k => ?_⟩
  rw [h3 k]
  by_cases hk : 0 ≤ k ∧ k < N
  · rw [if_pos hk, if_pos (by omega)]
  · rw [if_neg hk, if_neg (by omega)]

/-! ## Bounds of the cells of a worker, and the order of the workers -/

theorem State_ext (s t : State) (h1 : s.table = t.table) (h2 : s.oldTable = t.oldTable)
    (h3 : s.nextGeneration = t.nextGeneration) : s = t := by
  cases s
  cases t
  simp only at h1 h2 h3
  rw [h1, h2, h3]

theorem threadJobStep_flags (R C N id : Int) (s : State) (k : Int) :
    (threadJobStep R C N id s).nextGeneration k
      = if k = id then WAIT else s.nextGeneration k := by
  unfold threadJobStep
  simp only
  rw [threadJobLoops_eq_foldl, (foldl_gerarCelula_oldTable R C _ s).2]

/-- The generations of two workers commute. -/
theorem threadJobStep_comm (R C N a b : Int) (s : State) :
    threadJobStep R C N b (threadJobStep R C N a s)
      = threadJobStep R C N a (threadJobStep R C N b s) := by
  apply State_ext
  · funext i j
    simp only [threadJobStep_table, threadJobStep_oldTable]
    split_ifs <;> rfl
  · simp only [threadJobStep_oldTable]
  · funext k
    simp only [threadJobStep_flags]
    split_ifs <;> rfl

/-- A generation of the pool does not depend on the order of the workers. -/
theorem umaGeracao_perm (R C N : Int) (l₁ l₂ : List Int) (h : l₁.Perm l₂) (s : State) :
    umaGeracao R C N l₁ s = umaGeracao R C N l₂ s := by
  unfold umaGeracao
  exact List.Perm.foldl_eq' h (fun x _ y _ z => threadJobStep_comm R C N x y z) s

/-! ## Full generations on the compiled board -/

theorem indGrid_congr (R C : Int) (b b' : Board) (k l : Int)
    (h : ∀ i j, inGrid R C i j → b i j = b' i j) :
    indGrid R C b k l = indGrid R C b' k l := by
  unfold indGrid ind
  by_cases hg : inGrid R C k l
  · rw [if_pos hg, if_pos hg, h k l hg]
  · rw [if_neg hg, if_neg hg]

/-- The rule at a cell of the board reads the cells of the board only. -/
theorem nextState_congr (R C : Int) (b b' : Board) (i j : Int) (hin : inGrid R C i j)
    (h : ∀ k l, inGrid R C k l → b k l = b' k l) :
    nextState R C b i j = nextState R C b' i j := by
  unfold nextState
  simp only
  rw [liveNeighbours_eq_sum, liveNeighbours_eq_sum, h i j hin]
  simp only [indGrid_congr R C b b' _ _ h]

/-- A full generation with the compiled constants applies the rule to `table`. -/
theorem geracaoCompleta_compiled (ordem : List Int) (hordem : ordem.Perm [0, 1, 2, 3, 4])
    (s : State) (i j : Int) (hin : inGrid ROWS COLUMNS i j) :
    (geracaoCompleta ROWS COLUMNS THREADS ordem s).table i j
      = nextState ROWS COLUMNS s.table i j := by
  unfold geracaoCompleta
  obtain ⟨id, hid, hmem⟩ := compiled_cover i j hin
  rw [umaGeracao_table ROWS COLUMNS THREADS ordem _ i j ⟨id, hordem.mem_iff.mpr hid, hmem⟩,
    (prepareNextGeneration_spec THREADS s).2.1]
  exact novaCelula_spec ROWS COLUMNS s.table i j hin.1 hin.2.1 hin.2.2.1 hin.2.2.2

/-- A property checked at every cell of the compiled board holds on the board. -/
theorem grid_of_range (P : Int → Int → Prop)
    (h : ∀ a ∈ List.range 20, ∀ b ∈ List.range 20, P (a : Int) (b : Int))
    (i j : Int) (hin : inGrid ROWS COLUMNS i j) : P i j := by
  obtain ⟨h1, h2, h3, h4⟩ := hin
  have hR : ROWS = 20 := rfl
  have hC : COLUMNS = 20 := rfl
  rw [hR] at h2
  rw [hC] at h4
  have hi : ((i.toNat : Nat) : Int) = i := Int.toNat_of_nonneg h1
  have hj : ((j.toNat : Nat) : Int) = j := Int.toNat_of_nonneg h3
  have := h i.toNat (List.mem_range.mpr (by omega)) j.toNat (List.mem_range.mpr (by omega))
  rwa [hi, hj] at this

set_option maxRecDepth 1000000 in
theorem blinker_next_cells : ∀ a ∈ List.range 20, ∀ b ∈ List.range 20,
    nextState ROWS COLUMNS (blinker tabuleiroVazio) (a : Int) (b : Int)
      = blinkerVertical (a : Int) (b : Int) := by
  decide

set_option maxRecDepth 1000000 in
theorem vertical_next_cells : ∀ a ∈ List.range 20, ∀ b ∈ List.range 20,
    nextState ROWS COLUMNS blinkerVertical (a : Int) (b : Int)
      = blinker tabuleiroVazio (a : Int) (b : Int) := by
  decide

set_option maxRecDepth 1000000 in
theorem bloco_next_cells : ∀ a ∈ List.range 20, ∀ b ∈ List.range 20,
    nextState ROWS COLUMNS (bloco tabuleiroVazio) (a : Int) (b : Int)
      = bloco tabuleiroVazio (a : Int) (b : Int) := by
  decide

/-- From the horizontal blinker a full generation gives the vertical one. -/
theorem blinker_step (ordem : List Int) (hordem : ordem.Perm [0, 1, 2, 3, 4]) (s : State)
    (hinit : ∀ i j, inGrid ROWS COLUMNS i j → s.table i j = blinker tabuleiroVazio i j)
    (i j : Int) (hin : inGrid ROWS COLUMNS i j) :
    (geracaoCompleta ROWS COLUMNS THREADS ordem s).table i j = blinkerVertical i j := by
  rw [geracaoCompleta_compiled ordem hordem s i j hin,
    nextState_congr ROWS COLUMNS s.table (blinker tabuleiroVazio) i j hin hinit]
  exact grid_of_range
    (fun a b => nextState ROWS COLUMNS (blinker tabuleiroVazio) a b = blinkerVertical a b)
    blinker_next_cells i j hin

/-- From the vertical blinker a full generation gives the horizontal one. -/
theorem vertical_step (ordem : List Int) (hordem : ordem.Perm [0, 1, 2, 3, 4]) (s : State)
    (hinit : ∀ i j, inGrid ROWS COLUMNS i j → s.table i j = blinkerVertical i j)
    (i j : Int) (hin : inGrid ROWS COLUMNS i j) :
    (geracaoCompleta ROWS COLUMNS THREADS ordem s).table i j = blinker tabuleiroVazio i j := by
  rw [geracaoCompleta_compiled ordem hordem s i j hin,
    nextState_congr ROWS COLUMNS s.table blinkerVertical i j hin hinit]
  exact grid_of_range
    (fun a b => nextState ROWS COLUMNS blinkerVertical a b = blinker tabuleiroVazio a b)
    vertical_next_cells i j hin

/-- From the block a full generation gives the block. -/
theorem bloco_step (ordem : List Int) (hordem : ordem.Perm [0, 1, 2, 3, 4]) (s : State)
    (hinit : ∀ i j, inGrid ROWS COLUMNS i j → s.table i j = bloco tabuleiroVazio i j)
    (i j : Int) (hin : inGrid ROWS COLUMNS i j) :
    (geracaoCompleta ROWS COLUMNS THREADS ordem s).table i j = bloco tabuleiroVazio i j := by
  rw [geracaoCompleta_compiled ordem hordem s i j hin,
    nextState_congr ROWS COLUMNS s.table (bloco tabuleiroVazio) i j hin hinit]
  exact grid_of_range
    (fun a b => nextState ROWS COLUMNS (bloco tabuleiroVazio) a b = bloco tabuleiroVazio a b)
    bloco_next_cells i j hin

theorem geracoes_bloco (ordem : List Int) (hordem : ordem.Perm [0, 1, 2, 3, 4]) (s : State)
    (hinit : ∀ i j, inGrid ROWS COLUMNS i j → s.table i j = bloco tabuleiroVazio i j)
    (n : Nat) (i j : Int) (hin : inGrid ROWS COLUMNS i j) :
    (geracoes ROWS COLUMNS THREADS ordem n s).table i j = bloco tabuleiroVazio i j := by
  induction n generalizing i j with
  | zero => exact hinit i j hin
  | succ n ih => exact bloco_step ordem hordem _ (fun k l h => ih k l h) i j hin

/-! ## The worker loop after a request to end -/

theorem passo_gera (R C N id : Int) (st : State) :
    passo R C N id (Pc.gera, st)
      = (Pc.libera, threadJobLoops R C N id (fun i j s => gerarCelula R C i j s) st) := rfl

theorem passo_libera (R C N id : Int) (st : State) :
    passo R C N id (Pc.libera, st)
      = (Pc.espera,
          { st with nextGeneration := fun k => if k = id then WAIT else st.nextGeneration k }) :=
  rfl

theorem passo_espera_wait (R C N id : Int) (st : State) (h : st.nextGeneration id = WAIT) :
    passo R C N id (Pc.espera, st) = (Pc.espera, st) := by
  show (if st.nextGeneration id = WAIT then (Pc.espera, st) else (Pc.verifica, st)) = _
  rw [if_pos h]

theorem passo_espera_go (R C N id : Int) (st : State) (h : st.nextGeneration id ≠ WAIT) :
    passo R C N id (Pc.espera, st) = (Pc.verifica, st) := by
  show (if st.nextGeneration id = WAIT then (Pc.espera, st) else (Pc.verifica, st)) = _
  rw [if_neg h]

theorem passo_verifica_end (R C N id : Int) (st : State) (h : st.nextGeneration id = END) :
    passo R C N id (Pc.verifica, st) = (Pc.terminado, st) := by
  show (if st.nextGeneration id = END then (Pc.terminado, st) else (Pc.gera, st)) = _
  rw [if_pos h]

/-- A worker that is generating, or about to reset its flag, or waiting on a flag
that reads `WAIT`, is in the same situation after one more step. -/
theorem passo_stuck (R C N id : Int) (w : Pc × State)
    (h : w.1 = Pc.gera ∨ w.1 = Pc.libera
      ∨ (w.1 = Pc.espera ∧ w.2.nextGeneration id = WAIT)) :
    (passo R C N id w).1 = Pc.gera ∨ (passo R C N id w).1 = Pc.libera
      ∨ ((passo R C N id w).1 = Pc.espera ∧ (passo R C N id w).2.nextGeneration id = WAIT) := by
  obtain ⟨pc, st⟩ := w
  rcases h with h | h | ⟨h, hf⟩
  · simp only at h
    subst h
    right; left
    rfl
  · simp only at h
    subst h
    right; right
    simp [passo]
  · simp only at h hf
    subst h
    right; right
    simp [passo, hf]

theorem passos_stuck (R C N id : Int) (n : Nat) (w : Pc × State)
    (h : w.1 = Pc.gera ∨ w.1 = Pc.libera
      ∨ (w.1 = Pc.espera ∧ w.2.nextGeneration id = WAIT)) :
    (passos R C N id n w).1 ≠ Pc.terminado := by
  induction n generalizing w with
  | zero =>
    simp only [passos]
    rcases h with h | h | ⟨h, _⟩ <;> rw [h] <;> decide
  | succ n ih =>
    simp only [passos]
    exact ih _ (passo_stuck R C N id w h)

/-! ## Theorems of the claims -/

/-- C2: for a position `(i, j)` on the board, after `gerarCelula(i, j)` the cell
`table[i][j]` is alive exactly when `oldTable[i][j]` is alive and
`contarVizinhos(i, j)` is 2 or 3, or `oldTable[i][j]` is not alive and
`contarVizinhos(i, j)` is 3; in every other case `table[i][j]` is dead. -/
theorem gerarCelula_rule (R C : Int) (s : State) (i j : Int)
    (hi0 : 0 ≤ i) (hi1 : i < R) (hj0 : 0 ≤ j) (hj1 : j < C) :
    ((gerarCelula R C i j s).table i j = vivo ↔
        (s.oldTable i j = vivo ∧
            (contarVizinhos R C s.oldTable i j = 2 ∨ contarVizinhos R C s.oldTable i j = 3))
          ∨ (s.oldTable i j ≠ vivo ∧ contarVizinhos R C s.oldTable i j = 3))
      ∧ (¬ ((s.oldTable i j = vivo ∧
            (contarVizinhos R C s.oldTable i j = 2 ∨ contarVizinhos R C s.oldTable i j = 3))
          ∨ (s.oldTable i j ≠ vivo ∧ contarVizinhos R C s.oldTable i j = 3)) →
        (gerarCelula R C i j s).table i j = vazio) := by
  have _hin : inGrid R C i j := ⟨hi0, hi1, hj0, hj1⟩
  rw [gerarCelula_eq]
  simp only [Board.set, and_self, if_true]
  unfold novaCelula
  simp only
  generalize contarVizinhos R C s.oldTable i j = n
  have hne := vivo_ne_vazio
  by_cases ha : s.oldTable i j = vivo
  · by_cases hn : n < 2 ∨ n > 3
    · rw [if_pos ha, if_pos hn]
      refine ⟨⟨fun h => absurd h.symm hne, fun h => ?_⟩, fun _ => rfl⟩
      rcases h with ⟨_, h⟩ | ⟨h, _⟩
      · omega
      · exact absurd ha h
    · rw [if_pos ha, if_neg hn]
      refine ⟨⟨fun _ => Or.inl ⟨ha, by omega⟩, fun _ => rfl⟩, fun h => ?_⟩
      exact absurd (Or.inl ⟨ha, by omega⟩) h
  · by_cases hn : n = 3
    · rw [if_neg ha, if_pos hn]
      refine ⟨⟨fun _ => Or.inr ⟨ha, hn⟩, fun _ => rfl⟩, fun h => ?_⟩
      exact absurd (Or.inr ⟨ha, hn⟩) h
    · rw [if_neg ha, if_neg hn]
      refine ⟨⟨fun h => absurd h.symm hne, fun h => ?_⟩, fun _ => rfl⟩
      rcases h with ⟨h, _⟩ | ⟨_, h⟩
      · exact absurd h ha
      · exact absurd h hn

theorem gerarCelula_rule_witness :
    ((gerarCelula 3 3 0 1 ⟨fun _ _ => vazio, linhaDoMeio, fun _ => GO_AHEAD⟩).table 0 1 = vivo ↔
        (linhaDoMeio 0 1 = vivo ∧
            (contarVizinhos 3 3 linhaDoMeio 0 1 = 2 ∨ contarVizinhos 3 3 linhaDoMeio 0 1 = 3))
          ∨ (linhaDoMeio 0 1 ≠ vivo ∧ contarVizinhos 3 3 linhaDoMeio 0 1 = 3))
      ∧ (gerarCelula 3 3 0 1 ⟨fun _ _ => vazio, linhaDoMeio, fun _ => GO_AHEAD⟩).table 0 1 = vivo :=
  ⟨(gerarCelula_rule 3 3 ⟨fun _ _ => vazio, linhaDoMeio, fun _ => GO_AHEAD⟩ 0 1
      (by decide) (by decide) (by decide) (by decide)).1, by decide⟩

/-- C3: with the compiled constants (`ROWS = 20`, `COLUMNS = 20`, `THREADS = 5`),
when each of the five workers performs one generation of `threadJob`, in any
order, every one of the 400 cells is visited by a worker, `oldTable` is left as
it was, and `table` holds at every cell of the board the Game of Life successor
(dead border, standard rules) of `oldTable`. -/
theorem geracao_compiled (ordem : List Int) (s : State)
    (hordem : ordem.Perm [0, 1, 2, 3, 4]) :
    (∀ i j, inGrid ROWS COLUMNS i j →
        ∃ id, 0 ≤ id ∧ id < THREADS ∧ (i, j) ∈ threadJobCalls ROWS COLUMNS THREADS id)
      ∧ (umaGeracao ROWS COLUMNS THREADS ordem s).oldTable = s.oldTable
      ∧ (∀ i j, inGrid ROWS COLUMNS i j →
        (umaGeracao ROWS COLUMNS THREADS ordem s).table i j
          = nextState ROWS COLUMNS s.oldTable i j) := by
  refine ⟨fun i j h => ?_, umaGeracao_oldTable _ _ _ ordem s, fun i j h => ?_⟩
  · obtain ⟨id, hid, hmem⟩ := compiled_cover i j h
    have hT : THREADS = 5 := rfl
    simp only [List.mem_cons, List.mem_singleton, List.not_mem_nil, or_false] at hid
    exact ⟨id, by omega, by omega, hmem⟩
  · obtain ⟨id, hid, hmem⟩ := compiled_cover i j h
    rw [umaGeracao_table ROWS COLUMNS THREADS ordem s i j ⟨id, hordem.mem_iff.mpr hid, hmem⟩]
    exact novaCelula_spec ROWS COLUMNS s.oldTable i j h.1 h.2.1 h.2.2.1 h.2.2.2

theorem geracao_compiled_witness :
    (umaGeracao ROWS COLUMNS THREADS [3, 0, 4, 1, 2] estadoBlinker).table 0 1
        = nextState ROWS COLUMNS estadoBlinker.oldTable 0 1
      ∧ nextState ROWS COLUMNS estadoBlinker.oldTable 0 1 = vivo
      ∧ (umaGeracao ROWS COLUMNS THREADS [3, 0, 4, 1, 2] estadoBlinker).table 1 0
        = nextState ROWS COLUMNS estadoBlinker.oldTable 1 0
      ∧ nextState ROWS COLUMNS estadoBlinker.oldTable 1 0 = vazio :=
  ⟨(geracao_compiled [3, 0, 4, 1, 2] estadoBlinker (by decide)).2.2 0 1 (by decide),
    by decide,
    (geracao_compiled [3, 0, 4, 1, 2] estadoBlinker (by decide)).2.2 1 0 (by decide),
    by decide⟩

/-- C4 (the code departs from the claim): on a 3×3 board with 2 workers, worker 1
has the range `[5, 9)` but calls `gerarCelula` on `(1, 2)` and `(2, 2)` only; the
indices 6 and 7, the cells `(2, 0)` and `(2, 1)`, are never visited, and a stale
live cell at `(2, 0)` survives the generation over an all-dead `oldTable`. -/
theorem threadJob_skips_cells :
    inicio (elementos 3 3) 2 1 = 5 ∧ fim (elementos 3 3) 2 1 = 9
      ∧ threadJobCalls 3 3 2 1 = [(1, 2), (2, 2)]
      ∧ ((6 : Int).tdiv 3, (6 : Int).tmod 3) = (2, 0)
      ∧ (2, 0) ∉ threadJobCalls 3 3 2 1
      ∧ (threadJobStep 3 3 2 1 ⟨fun _ _ => vivo, fun _ _ => vazio, fun _ => GO_AHEAD⟩).table 2 0
          = vivo
      ∧ nextState 3 3 (fun _ _ => vazio) 2 0 = vazio := by
  decide

/-- C5: for `totalCells ≥ 0` and `workerCount ≥ 1` the ranges `[inicio, fim)` of
the workers `0, ..., workerCount-1` are pairwise disjoint and cover exactly
`[0, totalCells)`: `inicio(0) = 0`, `fim(id) = inicio(id+1)` below the last
worker, `inicio(id) ≤ fim(id)`, `fim(workerCount-1) = totalCells`; the range of a
lower worker ends before that of a higher one begins, and an index lies in
`[0, totalCells)` exactly when it lies in the range of some worker. -/
theorem partition_coverage (totalCells workerCount : Int)
    (hE : 0 ≤ totalCells) (hN : 1 ≤ workerCount) :
    inicio totalCells workerCount 0 = 0
      ∧ (∀ id, 0 ≤ id → id < workerCount - 1 →
          fim totalCells workerCount id = inicio totalCells workerCount (id + 1))
      ∧ (∀ id, 0 ≤ id → id < workerCount →
          inicio totalCells workerCount id ≤ fim totalCells workerCount id)
      ∧ fim totalCells workerCount (workerCount - 1) = totalCells
      ∧ (∀ a b, 0 ≤ a → a < b → b < workerCount →
          fim totalCells workerCount a ≤ inicio totalCells workerCount b)
      ∧ (∀ k, (0 ≤ k ∧ k < totalCells) ↔
          ∃ id, 0 ≤ id ∧ id < workerCount
            ∧ inicio totalCells workerCount id ≤ k ∧ k < fim totalCells workerCount id) := by
  refine ⟨inicio_zero _ _ hE hN, fun id _ _ => rfl,
    fun id _ _ => inicio_le_fim _ _ id hE hN, ?_, ?_, ?_⟩
  · rw [fim_eq_inicio_succ]
    have e : workerCount - 1 + 1 = workerCount := by ring
    rw [e]
    exact inicio_total _ _ hE hN
  · intro a b _ hab _
    rw [fim_eq_inicio_succ]
    exact inicio_mono _ _ (a + 1) b hE hN (by omega)
  · intro k
    constructor
    · rintro ⟨hk0, hk1⟩
      have h := exists_worker_below totalCells workerCount k hE hN hk0 workerCount.toNat
      rw [Int.toNat_of_nonneg (by omega), inicio_total _ _ hE hN] at h
      exact h hk1
    · rintro ⟨id, h0, h1, h2, h3⟩
      have ha := inicio_nonneg totalCells workerCount id hE hN h0
      have hb := fim_le_total totalCells workerCount id hE hN h1
      omega

theorem partition_coverage_witness :
    inicio 9 2 0 = 0 ∧ fim 9 2 0 = 5 ∧ inicio 9 2 1 = 5 ∧ fim 9 2 1 = 9
      ∧ fim 9 2 (2 - 1) = 9 :=
  ⟨by decide, by decide, by decide, by decide,
    (partition_coverage 9 2 (by decide) (by decide)).2.2.2.1⟩

/-- C6: for `totalCells ≥ 0`, `workerCount ≥ 1` and `0 ≤ id < workerCount`, with
`q = totalCells / workerCount` and `r = totalCells % workerCount`, `threadJob`
computes `inicio = id*q + min(id, r)` and `fim = (id+1)*q + min(id+1, r)`. -/
theorem partition_formula (totalCells workerCount id : Int)
    (hE : 0 ≤ totalCells) (hN : 1 ≤ workerCount) (hid0 : 0 ≤ id) (hid1 : id < workerCount) :
    inicio totalCells workerCount id
        = id * (totalCells / workerCount) + min id (totalCells % workerCount)
      ∧ fim totalCells workerCount id
        = (id + 1) * (totalCells / workerCount) + min (id + 1) (totalCells % workerCount) := by
  have _h := And.intro hid0 hid1
  exact ⟨inicio_eq _ _ id hE hN, fim_eq _ _ id hE hN⟩

theorem partition_formula_witness :
    inicio 9 2 1 = 1 * (9 / 2) + min 1 (9 % 2)
      ∧ fim 9 2 1 = (1 + 1) * (9 / 2) + min (1 + 1) (9 % 2) :=
  partition_formula 9 2 1 (by decide) (by decide) (by decide) (by decide)

/-- C7: for `totalCells ≥ 0` and `workerCount ≥ 1` the size `fim(id) - inicio(id)`
is `q + 1` for every worker `id < r` and `q` for every worker `id ≥ r`, where
`q = totalCells / workerCount` and `r = totalCells % workerCount`; hence the
sizes of any two workers differ by at most one. -/
theorem partition_balance (totalCells workerCount : Int)
    (hE : 0 ≤ totalCells) (hN : 1 ≤ workerCount) :
    (∀ id, 0 ≤ id → id < workerCount → id < totalCells % workerCount →
        fim totalCells workerCount id - inicio totalCells workerCount id
          = totalCells / workerCount + 1)
      ∧ (∀ id, 0 ≤ id → id < workerCount → totalCells % workerCount ≤ id →
        fim totalCells workerCount id - inicio totalCells workerCount id
          = totalCells / workerCount)
      ∧ (∀ a b, 0 ≤ a → a < workerCount → 0 ≤ b → b < workerCount →
        (fim totalCells workerCount a - inicio totalCells workerCount a)
          - (fim totalCells workerCount b - inicio totalCells workerCount b) ≤ 1) := by
  refine ⟨fun id _ _ h => ?_, fun id _ _ h => ?_, fun a b _ _ _ _ => ?_⟩
  · rw [tamanho_eq _ _ id hE hN, if_pos h]
  · rw [tamanho_eq _ _ id hE hN, if_neg (by omega)]
  · rw [tamanho_eq _ _ a hE hN, tamanho_eq _ _ b hE hN]
    split_ifs <;> omega

theorem partition_balance_witness :
    fim 9 2 0 - inicio 9 2 0 = 9 / 2 + 1 ∧ fim 9 2 1 - inicio 9 2 1 = 9 / 2 :=
  ⟨(partition_balance 9 2 (by decide) (by decide)).1 0 (by decide) (by decide) (by decide),
    (partition_balance 9 2 (by decide) (by decide)).2.1 1 (by decide) (by decide) (by decide)⟩

/-- C9: `gerarCelula(i, j)` leaves `oldTable` (and the flags) unchanged, changes no
cell of `table` other than `table[i][j]`, and writes the same value in any two
states that agree on `oldTable`, whatever their `table` holds. -/
theorem gerarCelula_frame (R C i j : Int) (s : State) :
    (gerarCelula R C i j s).oldTable = s.oldTable
      ∧ (gerarCelula R C i j s).nextGeneration = s.nextGeneration
      ∧ (∀ k l, ¬ (k = i ∧ l = j) → (gerarCelula R C i j s).table k l = s.table k l)
      ∧ (∀ s' : State, s'.oldTable = s.oldTable →
        (gerarCelula R C i j s').table i j = (gerarCelula R C i j s).table i j) := by
  refine ⟨by rw [gerarCelula_eq], by rw [gerarCelula_eq], fun k l h => ?_, fun s' h => ?_⟩
  · rw [gerarCelula_eq]
    simp only [Board.set, if_neg h]
  · rw [gerarCelula_eq, gerarCelula_eq, h]
    simp only [Board.set, and_self, if_true]

theorem gerarCelula_frame_witness :
    (gerarCelula 3 3 0 1 ⟨fun _ _ => vivo, linhaDoMeio, fun _ => GO_AHEAD⟩).table 0 1
      = (gerarCelula 3 3 0 1 ⟨fun _ _ => vazio, linhaDoMeio, fun _ => WAIT⟩).table 0 1 :=
  (gerarCelula_frame 3 3 0 1 ⟨fun _ _ => vazio, linhaDoMeio, fun _ => WAIT⟩).2.2.2
    ⟨fun _ _ => vivo, linhaDoMeio, fun _ => GO_AHEAD⟩ rfl

/-- C10: for every board size and worker count, a worker whose range is empty
(`inicio = fim`) performs a generation that calls `gerarCelula` zero times and
leaves `table` and `oldTable` unchanged; and when `0 ≤ totalCells < workerCount`
every worker `id ≥ totalCells` has an empty range, for `totalCells` the product
`R*C` as well as for the `int` value `elementos` of it. -/
theorem threadJob_empty_partition (R C N id : Int) :
    (inicio (elementos R C) N id = fim (elementos R C) N id →
        threadJobCalls R C N id = []
          ∧ ∀ s : State, (threadJobStep R C N id s).table = s.table
            ∧ (threadJobStep R C N id s).oldTable = s.oldTable)
      ∧ (0 ≤ R * C → R * C < N → R * C ≤ id →
        inicio (R * C) N id = fim (R * C) N id)
      ∧ (0 ≤ elementos R C → elementos R C < N → elementos R C ≤ id →
        inicio (elementos R C) N id = fim (elementos R C) N id) := by
  have hempty : ∀ E : Int, 0 ≤ E → E < N → E ≤ id → inicio E N id = fim E N id := by
    intro E hE hlt hid
    have hN : 1 ≤ N := by omega
    rw [inicio_eq _ _ _ hE hN, fim_eq _ _ _ hE hN, Int.ediv_eq_zero_of_lt hE hlt,
      Int.emod_eq_of_lt hE hlt, min_eq_right hid, min_eq_right (by omega)]
    simp
  refine ⟨fun h => ?_, hempty (R * C), hempty (elementos R C)⟩
  have hcalls : threadJobCalls R C N id = [] := by
    rw [threadJobCalls_eq, h]
    simp [rows]
  refine ⟨hcalls, fun s => ⟨?_, threadJobStep_oldTable R C N id s⟩⟩
  funext i j
  rw [threadJobStep_table, hcalls]
  simp

theorem threadJob_empty_partition_witness :
    inicio (elementos 1 1) 2 1 = fim (elementos 1 1) 2 1
      ∧ threadJobCalls 1 1 2 1 = []
      ∧ (threadJobStep 1 1 2 1 estadoVazio).table = estadoVazio.table :=
  ⟨by decide,
    ((threadJob_empty_partition 1 1 2 1).1 (by decide)).1,
    (((threadJob_empty_partition 1 1 2 1).1 (by decide)).2 estadoVazio).1⟩

/-- C11: on the compiled 20×20 board with 5 workers, from a state whose `table`
holds the preset `blinker()` on an empty board (live cells `(1,0)`, `(1,1)`,
`(1,2)` only), one full generation (`prepareNextGeneration`, then one generation
of every worker, in any order) leaves on the board of `table` exactly the live
cells `(0,1)`, `(1,1)`, `(2,1)`, all others `vazio`; a second full generation
gives the initial board again. -/
theorem blinker_oscillates (ordem : List Int) (s : State)
    (hordem : ordem.Perm [0, 1, 2, 3, 4])
    (hinit : ∀ i j, inGrid ROWS COLUMNS i j → s.table i j = blinker tabuleiroVazio i j) :
    (∀ i j, inGrid ROWS COLUMNS i j →
        (geracaoCompleta ROWS COLUMNS THREADS ordem s).table i j
          = if j = 1 ∧ 0 ≤ i ∧ i ≤ 2 then vivo else vazio)
      ∧ (∀ i j, inGrid ROWS COLUMNS i j →
        (geracaoCompleta ROWS COLUMNS THREADS ordem
            (geracaoCompleta ROWS COLUMNS THREADS ordem s)).table i j
          = s.table i j) := by
  refine ⟨fun i j hin => blinker_step ordem hordem s hinit i j hin, fun i j hin => ?_⟩
  rw [hinit i j hin]
  exact vertical_step ordem hordem _ (fun k l h => blinker_step ordem hordem s hinit k l h)
    i j hin

theorem blinker_oscillates_witness :
    (geracaoCompleta ROWS COLUMNS THREADS [0, 1, 2, 3, 4] estadoInicialBlinker).table 0 1
        = (if (1 : Int) = 1 ∧ (0 : Int) ≤ 0 ∧ (0 : Int) ≤ 2 then vivo else vazio)
      ∧ (geracaoCompleta ROWS COLUMNS THREADS [0, 1, 2, 3, 4]
          (geracaoCompleta ROWS COLUMNS THREADS [0, 1, 2, 3, 4] estadoInicialBlinker)).table 1 0
        = estadoInicialBlinker.table 1 0
      ∧ estadoInicialBlinker.table 1 0 = vivo :=
  ⟨(blinker_oscillates [0, 1, 2, 3, 4] estadoInicialBlinker (List.Perm.refl _)
      (fun _ _ _ => rfl)).1 0 1 (by decide),
    (blinker_oscillates [0, 1, 2, 3, 4] estadoInicialBlinker (List.Perm.refl _)
      (fun _ _ _ => rfl)).2 1 0 (by decide),
    by decide⟩

/-- C12: on the compiled 20×20 board with 5 workers, from a state whose `table`
holds the preset `bloco()` on an empty board (live cells `(0,0)`, `(0,1)`,
`(1,0)`, `(1,1)` only), for every `n` the board of `table` after `n` full
generations equals the initial board. -/
theorem bloco_stable (ordem : List Int) (s : State)
    (hordem : ordem.Perm [0, 1, 2, 3, 4])
    (hinit : ∀ i j, inGrid ROWS COLUMNS i j → s.table i j = bloco tabuleiroVazio i j)
    (n : Nat) :
    ∀ i j, inGrid ROWS COLUMNS i j →
      (geracoes ROWS COLUMNS THREADS ordem n s).table i j = s.table i j := by
  intro i j hin
  rw [hinit i j hin]
  exact geracoes_bloco ordem hordem s hinit n i j hin

theorem bloco_stable_witness :
    (geracoes ROWS COLUMNS THREADS [0, 1, 2, 3, 4] 3 estadoInicialBloco).table 1 1
        = estadoInicialBloco.table 1 1
      ∧ estadoInicialBloco.table 1 1 = vivo :=
  ⟨bloco_stable [0, 1, 2, 3, 4] estadoInicialBloco (List.Perm.refl _) (fun _ _ _ => rfl) 3
      1 1 (by decide),
    by decide⟩

/-- C13: `prepareNextGeneration` swaps the roles of the two boards and releases
every worker: afterwards `oldTable` is the board that was `table`, `table` is the
board that was `oldTable`, cell for cell, and `nextGeneration[i] = GO_AHEAD` for
every `0 ≤ i < THREADS` (for every value of the macro `THREADS`). -/
theorem prepareNextGeneration_swaps (N : Int) (s : State) :
    (prepareNextGeneration N s).oldTable = s.table
      ∧ (prepareNextGeneration N s).table = s.oldTable
      ∧ (∀ i j, (prepareNextGeneration N s).oldTable i j = s.table i j
          ∧ (prepareNextGeneration N s).table i j = s.oldTable i j)
      ∧ (∀ i, 0 ≤ i → i < N → (prepareNextGeneration N s).nextGeneration i = GO_AHEAD)
      ∧ (∀ i, 0 ≤ i → i < THREADS →
          (prepareNextGeneration THREADS s).nextGeneration i = GO_AHEAD) := by
  obtain ⟨h1, h2, h3⟩ := prepareNextGeneration_spec N s
  refine ⟨h2, h1, fun i j => ⟨by rw [h2], by rw [h1]⟩, fun i h0 hN => ?_, fun i h0 hN => ?_⟩
  · rw [h3 i, if_pos ⟨h0, hN⟩]
  · rw [(prepareNextGeneration_spec THREADS s).2.2 i, if_pos ⟨h0, hN⟩]

theorem prepareNextGeneration_swaps_witness :
    (prepareNextGeneration THREADS estadoBlinker).nextGeneration 4 = GO_AHEAD
      ∧ (prepareNextGeneration THREADS estadoBlinker).table 1 1 = vivo
      ∧ (prepareNextGeneration THREADS estadoBlinker).oldTable 0 0 = vivo :=
  ⟨(prepareNextGeneration_swaps THREADS estadoBlinker).2.2.2.1 4 (by decide) (by decide),
    by decide, by decide⟩

/-- C14 (the code departs from the claim): with the compiled constants, when
`sigint` sets the flag of worker 0 to `END` while that worker is in flight (the
cell loops not yet run), the worker runs its loops, resets its flag to `WAIT` and
is back at the wait: the flag it observes there is `WAIT`, not `END`, and no
number of further steps brings it to `pthread_exit`. The same request reaching a
worker that is waiting does end it. -/
theorem sigint_in_flight_lost (s : State) (n : Nat) :
    (sigint THREADS s).nextGeneration 0 = END
      ∧ (passos ROWS COLUMNS THREADS 0 2 (Pc.gera, sigint THREADS s)).1 = Pc.espera
      ∧ (passos ROWS COLUMNS THREADS 0 2 (Pc.gera, sigint THREADS s)).2.nextGeneration 0 = WAIT
      ∧ (passos ROWS COLUMNS THREADS 0 n (Pc.gera, sigint THREADS s)).1 ≠ Pc.terminado
      ∧ (passos ROWS COLUMNS THREADS 0 2 (Pc.espera, sigint THREADS s)).1 = Pc.terminado := by
  have hE : (sigint THREADS s).nextGeneration 0 = END := by
    rw [(sigint_spec THREADS s).2.2 0, if_pos (by decide)]
  refine ⟨hE, rfl, ?_, passos_stuck _ _ _ 0 n _ (Or.inl rfl), ?_⟩
  · show (passo ROWS COLUMNS THREADS 0
      (passo ROWS COLUMNS THREADS 0 (Pc.gera, sigint THREADS s))).2.nextGeneration 0 = WAIT
    rw [passo_gera, passo_libera]
    simp only [if_true]
  · have hne : (sigint THREADS s).nextGeneration 0 ≠ WAIT := by
      rw [hE]
      decide
    show (passo ROWS COLUMNS THREADS 0
      (passo ROWS COLUMNS THREADS 0 (Pc.espera, sigint THREADS s))).1 = Pc.terminado
    rw [passo_espera_go _ _ _ 0 _ hne, passo_verifica_end _ _ _ 0 _ hE]

/-- C16: on an `R × C` board whose `oldTable` has every cell dead (`vazio`), for
every position `(i, j)` on the board `contarVizinhos(i, j)` is 0 and
`gerarCelula(i, j)` writes `vazio` to `table[i][j]`. -/
theorem all_dead_stays_dead (R C : Int) (s : State) (i j : Int)
    (hi0 : 0 ≤ i) (hi1 : i < R) (hj0 : 0 ≤ j) (hj1 : j < C)
    (hdead : ∀ k l, inGrid R C k l → s.oldTable k l = vazio) :
    contarVizinhos R C s.oldTable i j = 0
      ∧ (gerarCelula R C i j s).table i j = vazio := by
  have h0 := contarVizinhos_all_dead R C s.oldTable i j hi0 hi1 hj0 hj1 hdead
  refine ⟨h0, ?_⟩
  rw [gerarCelula_eq]
  simp only [Board.set, and_self, if_true]
  unfold novaCelula
  simp only
  have hc : ¬ s.oldTable i j = vivo := fun h =>
    vivo_ne_vazio (h.symm.trans (hdead i j ⟨hi0, hi1, hj0, hj1⟩))
  rw [h0, if_neg hc, if_neg (by decide)]

theorem all_dead_stays_dead_witness :
    contarVizinhos 3 3 estadoVazio.oldTable 1 1 = 0
      ∧ (gerarCelula 3 3 1 1 estadoVazio).table 1 1 = vazio :=
  all_dead_stays_dead 3 3 estadoVazio 1 1 (by decide) (by decide) (by decide) (by decide)
    (fun _ _ _ => rfl)

/-- C17: on a board with `R ≥ 2` and `C ≥ 2` whose cells `(0,0)`, `(0,1)`, `(1,0)`
are alive and whose cell `(1,1)` is dead, whatever the other cells hold,
`contarVizinhos(0, 0)` is 2 and `gerarCelula(0, 0)` writes `vivo` to `table[0][0]`. -/
theorem corner_survives (R C : Int) (s : State) (hR : 2 ≤ R) (hC : 2 ≤ C)
    (h00 : s.oldTable 0 0 = vivo) (h01 : s.oldTable 0 1 = vivo)
    (h10 : s.oldTable 1 0 = vivo) (h11 : s.oldTable 1 1 ≠ vivo) :
    contarVizinhos R C s.oldTable 0 0 = 2
      ∧ (gerarCelula R C 0 0 s).table 0 0 = vivo := by
  have h2 := contarVizinhos_corner R C s.oldTable hR hC h01 h10 h11
  refine ⟨h2, ?_⟩
  rw [gerarCelula_eq]
  simp only [Board.set, and_self, if_true]
  unfold novaCelula
  simp only
  rw [h2, if_pos h00, if_neg (by decide)]

theorem corner_survives_witness :
    contarVizinhos 2 2 (fun i j => if i = 1 ∧ j = 1 then vazio else vivo) 0 0 = 2
      ∧ (gerarCelula 2 2 0 0
          ⟨tabuleiroVazio, fun i j => if i = 1 ∧ j = 1 then vazio else vivo,
            fun _ => GO_AHEAD⟩).table 0 0 = vivo :=
  corner_survives 2 2
    ⟨tabuleiroVazio, fun i j => if i = 1 ∧ j = 1 then vazio else vivo, fun _ => GO_AHEAD⟩
    (by decide) (by decide) (by decide) (by decide) (by decide) (by decide)

/-- C20: for every board size, worker count, state and any two worker ids `a` and
`b`, the generation of `a` followed by that of `b` gives the same `table` and
`oldTable` (and the same flags) as that of `b` followed by that of `a`; hence a
generation of the pool gives the same state for any two orders of the same
workers. -/
theorem threadJob_order_independent (R C N a b : Int) (s : State) :
    (threadJobStep R C N b (threadJobStep R C N a s)).table
        = (threadJobStep R C N a (threadJobStep R C N b s)).table
      ∧ (threadJobStep R C N b (threadJobStep R C N a s)).oldTable
        = (threadJobStep R C N a (threadJobStep R C N b s)).oldTable
      ∧ threadJobStep R C N b (threadJobStep R C N a s)
        = threadJobStep R C N a (threadJobStep R C N b s)
      ∧ (∀ l₁ l₂ : List Int, l₁.Perm l₂ → umaGeracao R C N l₁ s = umaGeracao R C N l₂ s) := by
  have h := threadJobStep_comm R C N a b s
  exact ⟨by rw [h], by rw [h], h, fun l₁ l₂ hp => umaGeracao_perm R C N l₁ l₂ hp s⟩

theorem threadJob_order_independent_witness :
    umaGeracao 3 3 2 [0, 1] estadoBlinker = umaGeracao 3 3 2 [1, 0] estadoBlinker :=
  (threadJob_order_independent 3 3 2 0 1 estadoBlinker).2.2.2 [0, 1] [1, 0] (by decide)

end Jogo
